import Mathlib

/-!
Shallow embedding of `src/ukiki.py` (ukiki: make UKIs using objcopy).

Pure functions of the script (`round_up`, `calculate_size`, `running_total`,
`translate_machine`, the regex extraction inside `parse_last_section`) become
Lean functions on `Int`/`Nat`/`List`.  Python's ordered dict of sections is a
`List (String × (Int × FileRef))` in insertion order.  `sys.exit` becomes
`Option`/`Except.error`; the two subprocess invocations and the temporary file
become oracle inputs (`Env`) plus an explicit effect trace (`Effect`), so that
`main`'s control flow and side-effect ordering are plain data.
-/

namespace Ukiki

/-- A file as the script sees it: a path plus its `stat().st_size` in bytes. -/
structure FileRef where
  path : String
  st_size : Nat
deriving DecidableEq, Repr, Inhabited

/-- Line 99-100: `def round_up(value, roundby): return -(-value // roundby) * roundby + roundby`.
Python `//` is floor division, i.e. `Int.fdiv`. -/
def round_up (value roundby : Int) : Int :=
  -((-value).fdiv roundby) * roundby + roundby

/-- Line 103-104: `calculate_size(file, alignment)` returns the tuple
`(round_up(file.stat().st_size, alignment), file)`. -/
def calculate_size (file : FileRef) (alignment : Int) : Int × FileRef :=
  (round_up file.st_size alignment, file)

/-- Line 107-113: `running_total(sizes, start)`: walk the ordered mapping of
`name ↦ (aligned_size, path)` keeping a running address `last` that starts at
`start`; each entry is assigned the current `last`, then `last += size`. -/
def running_total (sizes : List (String × (Int × FileRef))) (start : Int) :
    List (String × (Int × FileRef)) :=
  match sizes with
  | [] => []
  | (k, (v, p)) :: rest => (k, (start, p)) :: running_total rest (v + start)

/-! ### The regex extraction in `parse_last_section` (lines 89-96)

The script runs `objdump --section-headers` on the stub and applies
`re.search(r".reloc\s*([0-f]+)\s*([0-f]+)\s*([0-f]+)\s*([0-f]+)", output)`,
then `int(match.group(2), 16)`.  We embed the regex as a deterministic
scanner: leading `.` is the any-character metachar, then the literal `reloc`,
then four groups, each "skip whitespace, take a maximal nonempty run of
characters in the class `[0-f]`".  On objdump output the fields are separated
by whitespace, so the greedy match never needs to backtrack and this scanner
agrees with Python's `re.search`.  In objdump's section-header table the
columns after the name are Size, VMA, LMA, File offset, so group 2 is the
VMA column. -/

/-- Python `\s`: whitespace characters, by ASCII code point
(space 32, tab 9, newline 10, carriage return 13, vertical tab 11, form feed 12). -/
def isWsChar (c : Char) : Bool :=
  c.toNat = 32 || c.toNat = 9 || c.toNat = 10 || c.toNat = 13 || c.toNat = 11 || c.toNat = 12

/-- The regex character class `[0-f]`: code points between '0' (48) and 'f' (102). -/
def isHexRange (c : Char) : Bool :=
  48 ≤ c.toNat && c.toNat ≤ 102

/-- Consume `\s*`: drop leading whitespace. -/
def skipWs : List Char → List Char
  | [] => []
  | c :: cs => if isWsChar c then skipWs cs else c :: cs

/-- Consume `[0-f]*` greedily: split off the maximal leading run in the class. -/
def takeHexRun : List Char → List Char × List Char
  | [] => ([], [])
  | c :: cs =>
    if isHexRange c then
      let (run, rest) := takeHexRun cs
      (c :: run, rest)
    else ([], c :: cs)

/-- Consume `\s*([0-f]+)`: skip whitespace then capture a nonempty run. -/
def hexGroup (cs : List Char) : Option (List Char × List Char) :=
  match takeHexRun (skipWs cs) with
  | ([], _) => none
  | (c :: run, rest) => some (c :: run, rest)

/-- Consume the four consecutive `\s*([0-f]+)` groups after `.reloc`. -/
def matchGroups (rest : List Char) : Option (List Char × List Char × List Char × List Char) :=
  match hexGroup rest with
  | none => none
  | some (g1, r1) =>
    match hexGroup r1 with
    | none => none
    | some (g2, r2) =>
      match hexGroup r2 with
      | none => none
      | some (g3, r3) =>
        match hexGroup r3 with
        | none => none
        | some (g4, _) => some (g1, g2, g3, g4)

/-- Try the pattern `.reloc\s*([0-f]+)\s*([0-f]+)\s*([0-f]+)\s*([0-f]+)`
anchored at the head of the list: one arbitrary character (the `.`
metacharacter), the literal `reloc`, then the four captured groups. -/
def matchRelocAt (cs : List Char) : Option (List Char × List Char × List Char × List Char) :=
  match cs with
  | _ :: 'r' :: 'e' :: 'l' :: 'o' :: 'c' :: rest => matchGroups rest
  | _ => none

/-- `re.search`: try the pattern at each successive start position, returning
the first match. -/
def searchFrom : List Char → Option (List Char × List Char × List Char × List Char)
  | [] => none
  | c :: cs =>
    match matchRelocAt (c :: cs) with
    | some g => some g
    | none => searchFrom cs

/-- Value of one hexadecimal digit, as accepted by Python `int(_, 16)`. -/
def hexDigitVal (c : Char) : Option Nat :=
  if '0' ≤ c ∧ c ≤ '9' then some (c.toNat - '0'.toNat)
  else if 'a' ≤ c ∧ c ≤ 'f' then some (c.toNat - 'a'.toNat + 10)
  else if 'A' ≤ c ∧ c ≤ 'F' then some (c.toNat - 'A'.toNat + 10)
  else none

/-- Accumulator loop for `int(_, 16)`. -/
def hexAcc (acc : Nat) : List Char → Option Nat
  | [] => some acc
  | c :: cs =>
    match hexDigitVal c with
    | some d => hexAcc (16 * acc + d) cs
    | none => none

/-- Python `int(s, 16)` on a nonempty digit string; `none` models the
`ValueError` on an empty or non-hexadecimal string (the class `[0-f]` admits
characters such as `:` or `G` that `int` rejects). -/
def hexToNat (cs : List Char) : Option Nat :=
  match cs with
  | [] => none
  | _ => hexAcc 0 cs

/-- Lines 89-96: `parse_last_section`.  Runs the regex search over the objdump
output and returns `int(match.group(2), 16)`: the value of the second captured
field of the `.reloc` row.  `none` models the fatal `AttributeError` /
`ValueError` when the output has no `.reloc` row or the field is not a
hexadecimal numeral. -/
def parse_last_section (output : String) : Option Nat :=
  match searchFrom output.data with
  | some (_, g2, _, _) => hexToNat g2
  | none => none

/-! ### `translate_machine` (lines 76-86) -/

/-- Does the regex `i[34567]86` match at the head of the character list? -/
def i86Head : List Char → Bool
  | 'i' :: d :: '8' :: '6' :: _ => d == '3' || d == '4' || d == '5' || d == '6' || d == '7'
  | _ => false

/-- `re.search(r"i[34567]86", s)`: does `i[34567]86` occur anywhere in `s`? -/
def hasI86 : List Char → Bool
  | [] => false
  | c :: cs => i86Head (c :: cs) || hasI86 cs

/-- Does the literal `arm` occur at the head of the character list? -/
def armHead : List Char → Bool
  | 'a' :: 'r' :: 'm' :: _ => true
  | _ => false

/-- `re.search(r"arm.*", s)`: succeeds iff `arm` occurs anywhere in `s`. -/
def hasArm : List Char → Bool
  | [] => false
  | c :: cs => armHead (c :: cs) || hasArm cs

/-- Lines 76-86: `translate_machine`.  `none` models `sys.exit` on an
unrecognized architecture. -/
def translate_machine (arch : String) : Option String :=
  if arch = "x86_64" ∨ arch = "x64" ∨ arch = "amd64" then some "x64"
  else if hasI86 arch.data ∨ arch = "ia32" then some "ia32"
  else if arch = "arm64" ∨ arch = "aarch64" ∨ arch = "aa64" then some "aa64"
  else if hasArm arch.data then some "arm"
  else none

/-! ### `guess_efistub` (lines 46-73) -/

/-- Lines 49-53: the ordered candidate paths for the stub. -/
def guesslist (arch : String) : List String :=
  ["./linux" ++ arch ++ ".efi.stub",
   "/usr/lib/systemd/boot/efi/linux" ++ arch ++ ".efi.stub",
   "/usr/lib/gummiboot/linux" ++ arch ++ ".efi.stub"]

/-- Line 86: the `sys.exit` message for an unrecognized architecture. -/
def unknownArchMsg (arch : String) : String :=
  "Unknown architecture " ++ arch ++ ". Specify -e/--efistub."

/-- Lines 59-73: first line of the `sys.exit` message when no candidate stub
path exists (remediation guidance elided). -/
def stubAbsentMsg (arch : String) : String :=
  "The EFI stub linux" ++ arch ++
    ".efi.stub (required to produce a UKI) is absent, and no candidate exists in the filesystem."

/-- Lines 46-57: `guess_efistub` translates the architecture (which may exit
fatally), then returns the first existing candidate path, exiting fatally when
none exists.  The filesystem is the oracle `pathExists`. -/
def guess_efistub (pathExists : String → Bool) (arch : String) : Except String String :=
  match translate_machine arch with
  | none => .error (unknownArchMsg arch)
  | some code =>
    match (guesslist code).find? pathExists with
    | some p => .ok p
    | none => .error (stubAbsentMsg code)

/-! ### `main` (lines 116-193) -/

/-- Parsed command-line arguments (lines 117-140).  `argparse` gives
`cmdline` the default `""` when the flag is absent, and hands the flag's
string value through unchanged when it is present. -/
structure Args where
  output : String
  linux : FileRef
  initrd : FileRef
  osrel : FileRef
  splash : Option FileRef
  cmdline : String
  efistub : Option String
  arch : String
deriving Repr

/-- The `argparse` default for `--cmdline` (line 131). -/
def cmdlineDefault : String := ""

/-- External world oracles consumed by one run: the filesystem existence test,
the text `objdump --section-headers` prints for the stub, and the exit status
of the final `objcopy` invocation. -/
structure Env where
  pathExists : String → Bool
  objdumpOut : String
  objcopyExit : Int

/-- Observable side effects of a run, in order of occurrence. -/
inductive Effect where
  | tempfileCreate : Effect
  | tempfileWrite : String → Effect
  | subprocessObjdump : String → Effect
  | subprocessObjcopy : List String → Effect
  | tempfileDelete : Effect
deriving DecidableEq, Repr

/-- `subprocess.run(cmd, check=check)`: raises `CalledProcessError` iff
`check` is set and the exit status is nonzero; otherwise returns the status. -/
def subprocess_run (check : Bool) (exitCode : Int) : Except String Int :=
  if check ∧ exitCode ≠ 0 then .error "CalledProcessError" else .ok exitCode

/-- The name `tempfile.NamedTemporaryFile()` gives the command-line buffer. -/
def tempfileName : String := "/tmp/ukiki-cmdline"

/-- Line 143: `efistub = args.efistub if args.efistub is not None else guess_efistub(args.arch)`. -/
def resolveStub (pathExists : String → Bool) (args : Args) : Except String String :=
  match args.efistub with
  | some e => .ok e
  | none => guess_efistub pathExists args.arch

/-- Lines 158-168: build the ordered `sizes` mapping: `.osrel`, `.initrd`,
`.splash` only when `--splash` was given, `.cmdline` only when the cmdline
string is nonempty (its source is the temporary file holding the UTF-8
encoding of the string), and `.linux` always last. -/
def buildSizes (args : Args) (alignment : Int) : List (String × (Int × FileRef)) :=
  [(".osrel", calculate_size args.osrel alignment),
   (".initrd", calculate_size args.initrd alignment)]
  ++ (match args.splash with
      | some s => [(".splash", calculate_size s alignment)]
      | none => [])
  ++ (if args.cmdline = "" then []
      else [(".cmdline", calculate_size ⟨tempfileName, args.cmdline.utf8ByteSize⟩ alignment)])
  ++ [(".linux", calculate_size args.linux alignment)]

/-- Rendering of `f"0x{v:x}"`'s digits: lowercase hexadecimal, no prefix. -/
def hexStr (v : Int) : String :=
  ⟨Nat.toDigits 16 v.toNat⟩

/-- Lines 180-191: the `objcopy` command line: `objcopy <stub> <output>`
followed, for each planned section in order, by
`--add-section name=path --change-section-vma name=0xaddr`. -/
def objcopyCmd (efistub output : String) (offsets : List (String × (Int × FileRef))) :
    List String :=
  ["objcopy", efistub, output] ++
    offsets.flatMap (fun kvp =>
      ["--add-section", kvp.1 ++ "=" ++ kvp.2.2.path,
       "--change-section-vma", kvp.1 ++ "=0x" ++ hexStr kvp.2.1])

/-- Lines 116-193: `main`, as a pure function from the parsed arguments and
the world oracles to the effect trace plus the outcome.  A successful outcome
carries the computed offsets plan and the (unchecked) `objcopy` exit status;
an `Except.error` models `sys.exit` / an uncaught exception.  The effect
order mirrors the source: stub resolution happens before the temporary file
is created, which happens before `objdump` runs, which happens before
`objcopy` runs; the `with` block deletes the temporary file on every exit
path after its creation. -/
def mainRun (env : Env) (args : Args) :
    List Effect × Except String (List (String × (Int × FileRef)) × Int) :=
  match resolveStub env.pathExists args with
  | .error msg => ([], .error msg)
  | .ok efistub =>
    let pre : List Effect :=
      [.tempfileCreate, .tempfileWrite args.cmdline, .subprocessObjdump efistub]
    match parse_last_section env.objdumpOut with
    | none => (pre ++ [.tempfileDelete], .error "could not parse .reloc section header")
    | some last_stub_section =>
      let alignment : Int := 0x1000
      let aligned_stub_section := round_up last_stub_section alignment
      let sizes := buildSizes args alignment
      let offsets := running_total sizes aligned_stub_section
      let cmd := objcopyCmd efistub args.output offsets
      match subprocess_run false env.objcopyExit with
      | .error e => (pre ++ [.subprocessObjcopy cmd, .tempfileDelete], .error e)
      | .ok code => (pre ++ [.subprocessObjcopy cmd, .tempfileDelete], .ok (offsets, code))

/-! ### Observers used to state the layout-plan claims -/

/-- The ordered `(name, (aligned_size, file))` list the planner feeds
`running_total`, for a caller-supplied ordered section list. -/
def sizesList (sections : List (String × FileRef)) (alignment : Int) :
    List (String × (Int × FileRef)) :=
  sections.map fun kf => (kf.1, calculate_size kf.2 alignment)

/-- The plan for a given high-water mark and ordered section list, exactly as
`main` computes it: round the mark up to the 0x1000 quantum, then assign
addresses by `running_total` over the aligned sizes. -/
def planOf (hwm : Nat) (sections : List (String × FileRef)) :
    List (String × (Int × FileRef)) :=
  running_total (sizesList sections 0x1000) (round_up hwm 0x1000)

/-- Address assigned to the `i`-th section of the plan. -/
def planAddr (hwm : Nat) (sections : List (String × FileRef)) (i : Nat) : Int :=
  ((planOf hwm sections).getD i default).2.1

/-- Aligned size of the `i`-th section (what `calculate_size` produced). -/
def alignedSize (sections : List (String × FileRef)) (i : Nat) : Int :=
  ((sizesList sections 0x1000).getD i default).2.1

/-- Sum of the first `i` aligned sizes of an ordered sizes list. -/
def sumTo : List (String × (Int × FileRef)) → Nat → Int
  | _, 0 => 0
  | [], _ + 1 => 0
  | e :: rest, i + 1 => e.2.1 + sumTo rest i

/-! ## Arithmetic facts about `round_up` -/

/-- On natural-number inputs, `round_up` computes the ceiling of `v / r`
times `r`, plus one further quantum `r`. -/
theorem round_up_natCast (v r : Nat) (hr : 0 < r) :
    round_up (v : Int) (r : Int) = (((v + r - 1) / r) * r + r : Nat) := by
  obtain ⟨s, rfl⟩ : ∃ s, r = s + 1 := ⟨r - 1, by omega⟩
  cases v with
  | zero =>
    have h0 : (((0 + (s + 1) - 1) / (s + 1)) * (s + 1) + (s + 1) : Nat) = s + 1 := by
      rw [Nat.div_eq_of_lt (by omega)]
      omega
    rw [h0]
    show -((-((0 : Nat) : Int)).fdiv _) * _ + _ = _
    norm_num
  | succ n =>
    have h1 : (-((n + 1 : Nat) : Int)) = Int.negSucc n := rfl
    have h2 : (Int.negSucc n).fdiv ((s + 1 : Nat) : Int) = Int.negSucc (n / (s + 1)) := rfl
    have h3 : ((n + 1 + (s + 1) - 1) / (s + 1)) = n / (s + 1) + 1 := by
      have : n + 1 + (s + 1) - 1 = n + (s + 1) := by omega
      rw [this, Nat.add_div_right n (Nat.succ_pos s)]
    unfold round_up
    rw [h1, h2, h3]
    have h4 : -Int.negSucc (n / (s + 1)) = ((n / (s + 1) + 1 : Nat) : Int) := rfl
    rw [h4]
    push_cast
    ring

/-- The ceiling multiple dominates `v`. -/
theorem le_ceil_mul (v r : Nat) (hr : 0 < r) : v ≤ (v + r - 1) / r * r := by
  have h := Nat.div_add_mod (v + r - 1) r
  have h2 : (v + r - 1) % r < r := Nat.mod_lt _ hr
  rw [Nat.mul_comm]
  omega

/-- `round_up` always lands at least one quantum past its input. -/
theorem round_up_ge (v r : Nat) (hr : 0 < r) :
    (v : Int) + r ≤ round_up (v : Int) (r : Int) := by
  rw [round_up_natCast v r hr]
  have h := le_ceil_mul v r hr
  have h2 : ((v : Nat) : Int) ≤ (((v + r - 1) / r * r : Nat) : Int) := by exact_mod_cast h
  push_cast at h2 ⊢
  linarith

/-- `round_up`'s result is always a multiple of the quantum. -/
theorem round_up_dvd (v r : Int) : r ∣ round_up v r :=
  ⟨-((-v).fdiv r) + 1, by unfold round_up; ring⟩

/-! ## Structure of `running_total` and the prefix sums -/

theorem running_total_length (L : List (String × (Int × FileRef))) (start : Int) :
    (running_total L start).length = L.length := by
  induction L generalizing start with
  | nil => rfl
  | cons e rest ih =>
    obtain ⟨k, v, p⟩ := e
    simp [running_total, ih]

theorem running_total_names (L : List (String × (Int × FileRef))) (start : Int) :
    (running_total L start).map Prod.fst = L.map Prod.fst := by
  induction L generalizing start with
  | nil => rfl
  | cons e rest ih =>
    obtain ⟨k, v, p⟩ := e
    simp [running_total, ih]

/-- The `i`-th assigned address is the start plus the sum of the first `i`
aligned sizes. -/
theorem running_total_getD (L : List (String × (Int × FileRef))) (start : Int)
    (i : Nat) (h : i < L.length) (d : String × (Int × FileRef)) :
    ((running_total L start).getD i d).2.1 = start + sumTo L i := by
  induction L generalizing start i with
  | nil => simp at h
  | cons e rest ih =>
    obtain ⟨k, v, p⟩ := e
    cases i with
    | zero => simp [running_total, sumTo]
    | succ n =>
      have hn : n < rest.length := by simpa using h
      show ((running_total rest (v + start)).getD n d).2.1 = _
      rw [ih (v + start) n hn]
      show v + start + sumTo rest n = start + (v + sumTo rest n)
      ring

theorem sumTo_nonneg (L : List (String × (Int × FileRef)))
    (hpos : ∀ e ∈ L, 0 ≤ e.2.1) : ∀ i, 0 ≤ sumTo L i := by
  induction L with
  | nil => intro i; cases i <;> simp [sumTo]
  | cons e rest ih =>
    intro i
    cases i with
    | zero => simp [sumTo]
    | succ n =>
      have h1 : 0 ≤ e.2.1 := hpos e (by simp)
      have h2 := ih (fun x hx => hpos x (by simp [hx])) n
      simp only [sumTo]
      linarith

theorem sumTo_mono (L : List (String × (Int × FileRef)))
    (hpos : ∀ e ∈ L, 0 ≤ e.2.1) :
    ∀ i j, i ≤ j → sumTo L i ≤ sumTo L j := by
  induction L with
  | nil => intro i j _; cases i <;> cases j <;> simp [sumTo]
  | cons e rest ih =>
    intro i j hij
    cases i with
    | zero =>
      simpa [sumTo] using sumTo_nonneg (e :: rest) hpos j
    | succ n =>
      cases j with
      | zero => omega
      | succ m =>
        have h2 := ih (fun x hx => hpos x (by simp [hx])) n m (by omega)
        simp only [sumTo]
        linarith

theorem sumTo_succ_getD (L : List (String × (Int × FileRef))) (i : Nat)
    (h : i < L.length) (d : String × (Int × FileRef)) :
    sumTo L (i + 1) = sumTo L i + (L.getD i d).2.1 := by
  induction L generalizing i with
  | nil => simp at h
  | cons e rest ih =>
    cases i with
    | zero => simp [sumTo]
    | succ n =>
      have hn : n < rest.length := by simpa using h
      simp only [sumTo, List.getD_cons_succ]
      rw [ih n hn]
      ring

theorem sumTo_dvd (L : List (String × (Int × FileRef)))
    (hd : ∀ e ∈ L, (0x1000 : Int) ∣ e.2.1) :
    ∀ i, (0x1000 : Int) ∣ sumTo L i := by
  induction L with
  | nil => intro i; cases i <;> simp [sumTo]
  | cons e rest ih =>
    intro i
    cases i with
    | zero => simp [sumTo]
    | succ n =>
      simp only [sumTo]
      exact dvd_add (hd e (by simp)) (ih (fun x hx => hd x (by simp [hx])) n)

/-! ## Facts about the aligned sizes list -/

theorem sizesList_length (sections : List (String × FileRef)) (a : Int) :
    (sizesList sections a).length = sections.length := by
  simp [sizesList]

/-- Every aligned size the planner feeds `running_total` is a positive
multiple of the 0x1000 quantum. -/
theorem sizesList_mem (sections : List (String × FileRef))
    (e : String × (Int × FileRef)) (he : e ∈ sizesList sections 0x1000) :
    (0x1000 : Int) ∣ e.2.1 ∧ (0x1000 : Int) ≤ e.2.1 := by
  obtain ⟨kf, _, rfl⟩ := List.mem_map.mp he
  refine ⟨round_up_dvd _ _, ?_⟩
  have h1 := round_up_ge kf.2.st_size 0x1000 (by norm_num)
  have h2 : (0 : Int) ≤ (kf.2.st_size : Int) := Int.natCast_nonneg _
  calc (0x1000 : Int) ≤ (kf.2.st_size : Int) + 0x1000 := by linarith
  _ ≤ round_up (kf.2.st_size : Int) 0x1000 := h1

/-! ## Claim C1 -/

/-- C1: for every layout plan produced by the planner (`round_up` of the
high-water mark followed by `running_total` over the ordered aligned sizes),
the assigned addresses are monotonically non-decreasing in insertion order,
every assigned address is an exact multiple of the alignment quantum 0x1000,
each section's address range `[addr, addr+aligned_size)` is disjoint from
every other section's range, and none of the ranges intersects the stub's
pre-existing occupied range `[0, high_water_mark)`. -/
theorem C1_layout_invariants (hwm : Nat) (sections : List (String × FileRef))
    (i j : Nat) (hi : i < sections.length) (hj : j < sections.length) :
    (i ≤ j → planAddr hwm sections i ≤ planAddr hwm sections j) ∧
    ((0x1000 : Int) ∣ planAddr hwm sections i) ∧
    (i ≠ j → ∀ x : Int,
      ¬(planAddr hwm sections i ≤ x ∧
        x < planAddr hwm sections i + alignedSize sections i ∧
        planAddr hwm sections j ≤ x ∧
        x < planAddr hwm sections j + alignedSize sections j)) ∧
    (∀ x : Int, ¬(0 ≤ x ∧ x < (hwm : Int) ∧ planAddr hwm sections i ≤ x ∧
      x < planAddr hwm sections i + alignedSize sections i)) := by
  have hLlen : (sizesList sections 0x1000).length = sections.length :=
    sizesList_length sections 0x1000
  have hpos : ∀ e ∈ sizesList sections 0x1000, 0 ≤ e.2.1 := fun e he =>
    le_trans (by norm_num) (sizesList_mem sections e he).2
  have hdvd : ∀ e ∈ sizesList sections 0x1000, (0x1000 : Int) ∣ e.2.1 := fun e he =>
    (sizesList_mem sections e he).1
  have haddr : ∀ k, k < sections.length → planAddr hwm sections k =
      round_up (hwm : Int) 0x1000 + sumTo (sizesList sections 0x1000) k := by
    intro k hk
    unfold planAddr planOf
    exact running_total_getD _ _ k (by omega) default
  have hsize : ∀ k, alignedSize sections k =
      ((sizesList sections 0x1000).getD k default).2.1 := fun k => rfl
  have hbound : ∀ k, k < sections.length →
      planAddr hwm sections k + alignedSize sections k =
        round_up (hwm : Int) 0x1000 + sumTo (sizesList sections 0x1000) (k + 1) := by
    intro k hk
    rw [haddr k hk, hsize k, sumTo_succ_getD _ k (by omega) default]
    ring
  have hstart_ge : (hwm : Int) + 0x1000 ≤ round_up (hwm : Int) 0x1000 :=
    round_up_ge hwm 0x1000 (by norm_num)
  have key : ∀ a b, a < b → b < sections.length →
      planAddr hwm sections a + alignedSize sections a ≤ planAddr hwm sections b := by
    intro a b hab hb
    rw [hbound a (by omega), haddr b hb]
    have := sumTo_mono _ hpos (a + 1) b (by omega)
    linarith
  refine ⟨?_, ?_, ?_, ?_⟩
  · intro hij
    rw [haddr i hi, haddr j hj]
    have := sumTo_mono _ hpos i j hij
    linarith
  · rw [haddr i hi]
    exact dvd_add (round_up_dvd _ _) (sumTo_dvd _ hdvd i)
  · intro hne x hx
    obtain ⟨h1, h2, h3, h4⟩ := hx
    rcases Nat.lt_or_ge i j with hlt | hge
    · have := key i j hlt hj; linarith
    · have hji : j < i := by omega
      have := key j i hji hi; linarith
  · intro x hx
    obtain ⟨h0, h1, h2, h3⟩ := hx
    have hge : round_up (hwm : Int) 0x1000 ≤ planAddr hwm sections i := by
      rw [haddr i hi]
      have := sumTo_nonneg _ hpos i
      linarith
    linarith

/-- Witness for C1 at a concrete plan: high-water mark 0x3000 and two
sections of 10 and 5000 bytes, indices 0 and 1. -/
theorem C1_layout_invariants_witness :
    (0 < ([(".osrel", ⟨"os-release", 10⟩), (".linux", ⟨"vmlinuz", 5000⟩)] :
        List (String × FileRef)).length) ∧
    (1 < ([(".osrel", ⟨"os-release", 10⟩), (".linux", ⟨"vmlinuz", 5000⟩)] :
        List (String × FileRef)).length) ∧
    ((0 ≤ 1 →
      planAddr 0x3000 [(".osrel", ⟨"os-release", 10⟩), (".linux", ⟨"vmlinuz", 5000⟩)] 0 ≤
        planAddr 0x3000 [(".osrel", ⟨"os-release", 10⟩), (".linux", ⟨"vmlinuz", 5000⟩)] 1) ∧
     ((0x1000 : Int) ∣
        planAddr 0x3000 [(".osrel", ⟨"os-release", 10⟩), (".linux", ⟨"vmlinuz", 5000⟩)] 0) ∧
     ((0 : Nat) ≠ 1 → ∀ x : Int,
       ¬(planAddr 0x3000 [(".osrel", ⟨"os-release", 10⟩), (".linux", ⟨"vmlinuz", 5000⟩)] 0 ≤ x ∧
         x < planAddr 0x3000 [(".osrel", ⟨"os-release", 10⟩), (".linux", ⟨"vmlinuz", 5000⟩)] 0 +
           alignedSize [(".osrel", ⟨"os-release", 10⟩), (".linux", ⟨"vmlinuz", 5000⟩)] 0 ∧
         planAddr 0x3000 [(".osrel", ⟨"os-release", 10⟩), (".linux", ⟨"vmlinuz", 5000⟩)] 1 ≤ x ∧
         x < planAddr 0x3000 [(".osrel", ⟨"os-release", 10⟩), (".linux", ⟨"vmlinuz", 5000⟩)] 1 +
           alignedSize [(".osrel", ⟨"os-release", 10⟩), (".linux", ⟨"vmlinuz", 5000⟩)] 1)) ∧
     (∀ x : Int,
       ¬(0 ≤ x ∧ x < ((0x3000 : Nat) : Int) ∧
         planAddr 0x3000 [(".osrel", ⟨"os-release", 10⟩), (".linux", ⟨"vmlinuz", 5000⟩)] 0 ≤ x ∧
         x < planAddr 0x3000 [(".osrel", ⟨"os-release", 10⟩), (".linux", ⟨"vmlinuz", 5000⟩)] 0 +
           alignedSize [(".osrel", ⟨"os-release", 10⟩), (".linux", ⟨"vmlinuz", 5000⟩)] 0))) :=
  ⟨by decide, by decide,
    C1_layout_invariants 0x3000
      [(".osrel", ⟨"os-release", 10⟩), (".linux", ⟨"vmlinuz", 5000⟩)] 0 1
      (by decide) (by decide)⟩

/-! ## Claim C2 -/

/-- C2 counterexample: the claim asserts `round_up(0x1001, 0x1000) == 0x2000`
and `round_up(0xFFF, 0x1000) == 0x1000`; the code computes 0x3000 and 0x2000
respectively, because `round_up` adds a full quantum on top of the ceiling. -/
theorem C2_round_up_counterexample :
    round_up 0x1001 0x1000 = 0x3000 ∧ round_up 0x1001 0x1000 ≠ 0x2000 ∧
    round_up 0xFFF 0x1000 = 0x2000 ∧ round_up 0xFFF 0x1000 ≠ 0x1000 :=
  ⟨by decide, by decide, by decide, by decide⟩

/-- C2 amended: for `v` an exact multiple of `a`, `round_up(v, a)` is the
smallest multiple of `a` strictly greater than `v` (namely `v + a`);
otherwise it is one full quantum MORE than the smallest multiple of `a`
greater than or equal to `v+1` (namely `(v/a + 1)*a + a`); concretely
`round_up(0x1000, 0x1000) = 0x2000`, `round_up(0x1001, 0x1000) = 0x3000`,
and `round_up(0xFFF, 0x1000) = 0x2000`. -/
theorem C2_round_up_amended (v a : Nat) (ha : 0 < a) :
    (a ∣ v → round_up (v : Int) (a : Int) = (v : Int) + a) ∧
    (¬a ∣ v → round_up (v : Int) (a : Int) = ((v / a + 1) * a + a : Nat)) ∧
    round_up 0x1000 0x1000 = 0x2000 ∧
    round_up 0x1001 0x1000 = 0x3000 ∧
    round_up 0xFFF 0x1000 = 0x2000 := by
  refine ⟨?_, ?_, by decide, by decide, by decide⟩
  · intro hdvd
    obtain ⟨k, rfl⟩ := hdvd
    rw [round_up_natCast (a * k) a ha]
    have h1 : a * k + a - 1 = a * k + (a - 1) := by omega
    have h2 : (a * k + (a - 1)) / a = k + (a - 1) / a := Nat.mul_add_div ha k (a - 1)
    have h3 : (a - 1) / a = 0 := Nat.div_eq_of_lt (by omega)
    rw [h1, h2, h3]
    push_cast
    ring
  · intro hnd
    have hmod : v % a ≠ 0 := fun h0 => hnd (Nat.dvd_of_mod_eq_zero h0)
    have hlt : v % a < a := Nat.mod_lt _ ha
    have hv := Nat.div_add_mod v a
    have hkey : v + a - 1 = a * (v / a + 1) + (v % a - 1) := by
      have hexp : a * (v / a + 1) = a * (v / a) + a := by ring
      omega
    have hsmall : (v % a - 1) / a = 0 := Nat.div_eq_of_lt (by omega)
    have hdiv : (v + a - 1) / a = v / a + 1 := by
      rw [hkey, Nat.mul_add_div ha, hsmall]
    rw [round_up_natCast v a ha, hdiv]

/-- Witness for C2 amended at `v = 0x1001`, `a = 0x1000`. -/
theorem C2_round_up_amended_witness :
    (0 < 0x1000) ∧
    ((0x1000 ∣ 0x1001 →
        round_up ((0x1001 : Nat) : Int) ((0x1000 : Nat) : Int) = ((0x1001 : Nat) : Int) + (0x1000 : Nat)) ∧
     (¬(0x1000 : Nat) ∣ 0x1001 →
        round_up ((0x1001 : Nat) : Int) ((0x1000 : Nat) : Int) =
          ((0x1001 / 0x1000 + 1) * 0x1000 + 0x1000 : Nat)) ∧
     round_up 0x1000 0x1000 = 0x2000 ∧
     round_up 0x1001 0x1000 = 0x3000 ∧
     round_up 0xFFF 0x1000 = 0x2000) :=
  ⟨by decide, C2_round_up_amended 0x1001 0x1000 (by decide)⟩

/-! ## Claim C3 -/

theorem hex_not_ws (c : Char) (h : isHexRange c = true) : isWsChar c = false := by
  simp only [isHexRange, Bool.and_eq_true, decide_eq_true_eq] at h
  simp only [isWsChar, Bool.or_eq_false_iff, decide_eq_false_iff_not]
  omega

theorem skipWs_cons_of_ws (c : Char) (l : List Char) (h : isWsChar c = true) :
    skipWs (c :: l) = skipWs l := by
  simp [skipWs, h]

theorem skipWs_cons_of_not_ws (c : Char) (l : List Char) (h : isWsChar c = false) :
    skipWs (c :: l) = c :: l := by
  simp [skipWs, h]

/-- Greedy `[0-f]*` splits an all-hex-class run off exactly when the
remainder is empty or starts outside the class. -/
theorem takeHexRun_stop (l rest : List Char) (h : ∀ c ∈ l, isHexRange c = true)
    (hrest : rest = [] ∨ ∃ b t, rest = b :: t ∧ isHexRange b = false) :
    takeHexRun (l ++ rest) = (l, rest) := by
  induction l with
  | nil =>
    rcases hrest with rfl | ⟨b, t, rfl, hb⟩
    · rfl
    · simp [takeHexRun, hb]
  | cons c cs ih =>
    have hc : isHexRange c = true := h c (by simp)
    have ih2 := ih fun x hx => h x (by simp [hx])
    simp [takeHexRun, hc, ih2]

/-- `\s*([0-f]+)` on a space, a nonempty hex-class field, and a remainder
that is empty or starts outside the class captures exactly the field. -/
theorem hexGroup_exact (f rest : List Char) (hne : f ≠ [])
    (hhex : ∀ c ∈ f, isHexRange c = true)
    (hrest : rest = [] ∨ ∃ b t, rest = b :: t ∧ isHexRange b = false) :
    hexGroup (' ' :: (f ++ rest)) = some (f, rest) := by
  obtain ⟨c, cs, rfl⟩ := List.exists_cons_of_ne_nil hne
  have hc : isHexRange c = true := hhex c (by simp)
  unfold hexGroup
  rw [skipWs_cons_of_ws ' ' _ (by decide), List.cons_append,
    skipWs_cons_of_not_ws c _ (hex_not_ws c hc), ← List.cons_append,
    takeHexRun_stop (c :: cs) rest hhex hrest]

/-- The full pattern on a well-formed `.reloc` row captures the four
whitespace-separated fields in order. -/
theorem matchRelocAt_row (f1 f2 f3 f4 : List Char)
    (h1 : f1 ≠ [] ∧ ∀ c ∈ f1, isHexRange c = true)
    (h2 : f2 ≠ [] ∧ ∀ c ∈ f2, isHexRange c = true)
    (h3 : f3 ≠ [] ∧ ∀ c ∈ f3, isHexRange c = true)
    (h4 : f4 ≠ [] ∧ ∀ c ∈ f4, isHexRange c = true) :
    matchRelocAt ('.' :: 'r' :: 'e' :: 'l' :: 'o' :: 'c' :: ' ' ::
      (f1 ++ ' ' :: (f2 ++ ' ' :: (f3 ++ ' ' :: f4)))) = some (f1, f2, f3, f4) := by
  have hg1 := hexGroup_exact f1 (' ' :: (f2 ++ ' ' :: (f3 ++ ' ' :: f4))) h1.1 h1.2
    (Or.inr ⟨' ', _, rfl, by decide⟩)
  have hg2 := hexGroup_exact f2 (' ' :: (f3 ++ ' ' :: f4)) h2.1 h2.2
    (Or.inr ⟨' ', _, rfl, by decide⟩)
  have hg3 := hexGroup_exact f3 (' ' :: f4) h3.1 h3.2
    (Or.inr ⟨' ', _, rfl, by decide⟩)
  have hg4 := hexGroup_exact f4 [] h4.1 h4.2 (Or.inl rfl)
  rw [List.append_nil] at hg4
  show matchGroups (' ' :: (f1 ++ ' ' :: (f2 ++ ' ' :: (f3 ++ ' ' :: f4)))) = _
  simp only [matchGroups, hg1, hg2, hg3, hg4]

/-- C3 counterexample: on a `.reloc` row whose Size column reads `100` and
whose VMA column reads `2000`, `parse_last_section` returns 0x2000 — the
virtual address alone — whereas the claim asserts the sum 0x2000 + 0x100 =
0x2100 is returned. -/
theorem C3_parse_counterexample :
    parse_last_section " 5 .reloc 100 2000 2000 1800 2**2\n" = some 0x2000 ∧
    parse_last_section " 5 .reloc 100 2000 2000 1800 2**2\n" ≠ some (0x2000 + 0x100) :=
  ⟨by decide, by decide⟩

/-- C3 amended: given the `.reloc` section-header row, the Section Inspector
captures the four whitespace-separated hexadecimal fields after the name
(objdump's columns Size, VMA, LMA, File offset) and returns the parsed value
of the SECOND captured field — the virtual address alone, the start rather
than the end of `.reloc`; the size field is captured but unused. -/
theorem C3_parse_amended (f1 f2 f3 f4 : List Char)
    (h1 : f1 ≠ [] ∧ ∀ c ∈ f1, isHexRange c = true)
    (h2 : f2 ≠ [] ∧ ∀ c ∈ f2, isHexRange c = true)
    (h3 : f3 ≠ [] ∧ ∀ c ∈ f3, isHexRange c = true)
    (h4 : f4 ≠ [] ∧ ∀ c ∈ f4, isHexRange c = true) :
    parse_last_section ⟨'.' :: 'r' :: 'e' :: 'l' :: 'o' :: 'c' :: ' ' ::
      (f1 ++ ' ' :: (f2 ++ ' ' :: (f3 ++ ' ' :: f4)))⟩ = hexToNat f2 := by
  have hm := matchRelocAt_row f1 f2 f3 f4 h1 h2 h3 h4
  show (match searchFrom ('.' :: 'r' :: 'e' :: 'l' :: 'o' :: 'c' :: ' ' ::
      (f1 ++ ' ' :: (f2 ++ ' ' :: (f3 ++ ' ' :: f4)))) with
    | some (_, g2, _, _) => hexToNat g2
    | none => none) = hexToNat f2
  rw [show searchFrom ('.' :: 'r' :: 'e' :: 'l' :: 'o' :: 'c' :: ' ' ::
      (f1 ++ ' ' :: (f2 ++ ' ' :: (f3 ++ ' ' :: f4)))) =
      (match matchRelocAt ('.' :: 'r' :: 'e' :: 'l' :: 'o' :: 'c' :: ' ' ::
        (f1 ++ ' ' :: (f2 ++ ' ' :: (f3 ++ ' ' :: f4)))) with
      | some g => some g
      | none => searchFrom ('r' :: 'e' :: 'l' :: 'o' :: 'c' :: ' ' ::
        (f1 ++ ' ' :: (f2 ++ ' ' :: (f3 ++ ' ' :: f4))))) from rfl]
  rw [hm]

/-- Witness for C3 amended, on the row with Size `100` and VMA `2000`. -/
theorem C3_parse_amended_witness :
    ((['1', '0', '0'] : List Char) ≠ [] ∧
      ∀ c ∈ (['1', '0', '0'] : List Char), isHexRange c = true) ∧
    ((['2', '0', '0', '0'] : List Char) ≠ [] ∧
      ∀ c ∈ (['2', '0', '0', '0'] : List Char), isHexRange c = true) ∧
    ((['1', '8', '0', '0'] : List Char) ≠ [] ∧
      ∀ c ∈ (['1', '8', '0', '0'] : List Char), isHexRange c = true) ∧
    parse_last_section ⟨'.' :: 'r' :: 'e' :: 'l' :: 'o' :: 'c' :: ' ' ::
      (['1', '0', '0'] ++ ' ' :: (['2', '0', '0', '0'] ++ ' ' ::
        (['2', '0', '0', '0'] ++ ' ' :: ['1', '8', '0', '0'])))⟩ =
      hexToNat ['2', '0', '0', '0'] :=
  ⟨⟨by decide, by decide⟩, ⟨by decide, by decide⟩, ⟨by decide, by decide⟩,
    C3_parse_amended ['1', '0', '0'] ['2', '0', '0', '0'] ['2', '0', '0', '0']
      ['1', '8', '0', '0'] ⟨by decide, by decide⟩ ⟨by decide, by decide⟩
      ⟨by decide, by decide⟩ ⟨by decide, by decide⟩⟩

/-! ## Claim C4 -/

/-- The two-section scenario of the Layout Planner example: high-water mark
0x3000, `.osrel` backed by a 10-byte file, `.linux` by a 5000-byte file. -/
def c4sections : List (String × FileRef) :=
  [(".osrel", ⟨"os-release", 10⟩), (".linux", ⟨"vmlinuz", 5000⟩)]

/-- C4 counterexample: the claim asserts `.osrel` has aligned size 0x1000 and
`.linux` is assigned 0x5000; the code rounds 10 bytes up to 0x2000 (ceiling
plus one extra quantum) and therefore places `.linux` at 0x6000. -/
theorem C4_plan_counterexample :
    alignedSize c4sections 0 = 0x2000 ∧ alignedSize c4sections 0 ≠ 0x1000 ∧
    planAddr 0x3000 c4sections 1 = 0x6000 ∧ planAddr 0x3000 c4sections 1 ≠ 0x5000 :=
  ⟨by decide, by decide, by decide, by decide⟩

/-- C4 amended: given high-water mark 0x3000, alignment 0x1000, and sections
`.osrel` (10-byte source) and `.linux` (5000-byte source), the starting
address is 0x4000 (the mark rounded up), `.osrel` is assigned 0x4000 with
aligned size 0x2000, and `.linux` is assigned 0x6000. -/
theorem C4_plan_amended :
    round_up 0x3000 0x1000 = 0x4000 ∧
    planAddr 0x3000 c4sections 0 = 0x4000 ∧
    alignedSize c4sections 0 = 0x2000 ∧
    planAddr 0x3000 c4sections 1 = 0x6000 :=
  ⟨by decide, by decide, by decide, by decide⟩

/-! ## Claim C5 -/

/-- The end-to-end scenario: a stub whose `.reloc` row reports Size 0x100 at
VMA 0x2000, and an `objcopy` that exits 0. -/
def c5env : Env :=
  ⟨fun _ => false, " 5 .reloc 100 2000 2000 1800 2**2\n", 0⟩

/-- One-byte osrel, initrd, and linux inputs; no splash; empty cmdline; an
explicit stub path. -/
def c5args : Args :=
  ⟨"uki.efi", ⟨"vmlinuz", 1⟩, ⟨"initrd.img", 1⟩, ⟨"os-release", 1⟩, none, "",
    some "stub.efi", "x86_64"⟩

/-- C5 counterexample: the produced plan's first section does start at 0x3000,
but each one-byte section gets aligned size 0x2000 — two quanta, not the one
quantum (0x1000) the claim asserts. -/
theorem C5_end_to_end_counterexample :
    ((mainRun c5env c5args).2.toOption.map fun pr => pr.1.map fun e => (e.1, e.2.1)) =
      some [(".osrel", 0x3000), (".initrd", 0x5000), (".linux", 0x7000)] ∧
    (buildSizes c5args 0x1000).map (fun e => e.2.1) = [0x2000, 0x2000, 0x2000] ∧
    (buildSizes c5args 0x1000).map (fun e => e.2.1) ≠ [0x1000, 0x1000, 0x1000] :=
  ⟨by decide, by decide, by decide⟩

/-- C5 amended: with the stub's `.reloc` row reporting address 0x2000 and
size 0x100 and one-byte osrel/initrd/linux inputs (no splash, empty cmdline),
the plan's first section starts at 0x3000 and every section occupies exactly
two alignment quanta (aligned size 0x2000). -/
theorem C5_end_to_end_amended :
    ((mainRun c5env c5args).2.toOption.map fun pr => pr.1.map fun e => (e.1, e.2.1)) =
      some [(".osrel", 0x3000), (".initrd", 0x5000), (".linux", 0x7000)] ∧
    ∀ sz ∈ (buildSizes c5args 0x1000).map (fun e => e.2.1), sz = 2 * 0x1000 :=
  ⟨by decide, by decide⟩

/-! ## Claim C6 -/

/-- The names of the planned sections, in order, as a function of which
optional inputs were supplied. -/
theorem buildSizes_names (args : Args) (a : Int) :
    (buildSizes args a).map Prod.fst =
      [".osrel", ".initrd"] ++
        (match args.splash with | some _ => [".splash"] | none => []) ++
        (if args.cmdline = "" then [] else [".cmdline"]) ++ [".linux"] := by
  unfold buildSizes
  cases hs : args.splash <;> by_cases hc : args.cmdline = "" <;> simp [hs, hc]

/-- C6: for every combination of optional inputs, the plan lists sections in
the fixed order `.osrel`, `.initrd`, `.splash` (if present), `.cmdline` (if
present), `.linux`; `.linux` is always the last entry; and the `.splash` and
`.cmdline` entries are absent exactly when the corresponding input was not
supplied. -/
theorem C6_section_order (args : Args) (start : Int) :
    ((running_total (buildSizes args 0x1000) start).map Prod.fst =
      [".osrel", ".initrd"] ++
        (match args.splash with | some _ => [".splash"] | none => []) ++
        (if args.cmdline = "" then [] else [".cmdline"]) ++ [".linux"]) ∧
    (((running_total (buildSizes args 0x1000) start).map Prod.fst).getLast? =
      some ".linux") ∧
    (".splash" ∈ (running_total (buildSizes args 0x1000) start).map Prod.fst ↔
      args.splash.isSome) ∧
    (".cmdline" ∈ (running_total (buildSizes args 0x1000) start).map Prod.fst ↔
      args.cmdline ≠ "") := by
  rw [running_total_names, buildSizes_names]
  refine ⟨rfl, ?_, ?_, ?_⟩ <;>
    cases hs : args.splash <;> by_cases hc : args.cmdline = "" <;>
      simp [hs, hc]

/-! ## Claim C7 -/

/-- C7 counterexample: `"karm"` does not start with `arm` (and matches none
of the claim's other bullets), so the claim says the Normalizer must fail
fatally on it; but the code's `re.search(r"arm.*", ...)` matches the `arm`
substring at position 1, so `"karm"` is mapped to `arm`. -/
theorem C7_translate_counterexample :
    translate_machine "karm" = some "arm" ∧ translate_machine "karm" ≠ none ∧
    armHead "karm".data = false :=
  ⟨by decide, by decide, by decide⟩

/-- C7 amended: the Normalizer maps the x64/ia32/aa64 alias families as
claimed; any string CONTAINING a substring matching `i[34567]86` maps to
`ia32`, and any string CONTAINING `arm` as a substring (after the earlier
checks fail) maps to `arm`; it fails fatally exactly on the strings matched
by none of these checks. -/
theorem C7_translate_amended :
    translate_machine "x86_64" = some "x64" ∧
    translate_machine "x64" = some "x64" ∧
    translate_machine "amd64" = some "x64" ∧
    translate_machine "i386" = some "ia32" ∧
    translate_machine "i486" = some "ia32" ∧
    translate_machine "i586" = some "ia32" ∧
    translate_machine "i686" = some "ia32" ∧
    translate_machine "i786" = some "ia32" ∧
    translate_machine "ia32" = some "ia32" ∧
    translate_machine "xi386y" = some "ia32" ∧
    translate_machine "arm64" = some "aa64" ∧
    translate_machine "aarch64" = some "aa64" ∧
    translate_machine "aa64" = some "aa64" ∧
    translate_machine "armv7l" = some "arm" ∧
    translate_machine "karm" = some "arm" ∧
    (∀ s : String, translate_machine s = none ↔
      (s ≠ "x86_64" ∧ s ≠ "x64" ∧ s ≠ "amd64" ∧ hasI86 s.data = false ∧
       s ≠ "ia32" ∧ s ≠ "arm64" ∧ s ≠ "aarch64" ∧ s ≠ "aa64" ∧
       hasArm s.data = false)) := by
  refine ⟨by decide, by decide, by decide, by decide, by decide, by decide, by decide,
    by decide, by decide, by decide, by decide, by decide, by decide, by decide,
    by decide, ?_⟩
  intro s
  unfold translate_machine
  split_ifs with hx hi ha harm
  · constructor
    · intro h; simp at h
    · rintro ⟨hn1, hn2, hn3, -, -, -, -, -, -⟩
      rcases hx with h | h | h
      exacts [hn1 h, hn2 h, hn3 h]
  · constructor
    · intro h; simp at h
    · rintro ⟨-, -, -, hI, hn5, -, -, -, -⟩
      rcases hi with h | h
      · rw [h] at hI; cases hI
      · exact hn5 h
  · constructor
    · intro h; simp at h
    · rintro ⟨-, -, -, -, -, hn6, hn7, hn8, -⟩
      rcases ha with h | h | h
      exacts [hn6 h, hn7 h, hn8 h]
  · constructor
    · intro h; simp at h
    · rintro ⟨-, -, -, -, -, -, -, -, hA⟩
      rw [harm] at hA; cases hA
  · simp only [not_or] at hx hi ha
    refine ⟨fun _ => ⟨hx.1, hx.2.1, hx.2.2, by simpa using hi.1, hi.2,
      ha.1, ha.2.1, ha.2.2, by simpa using harm⟩, fun _ => rfl⟩

/-! ## Claim C10 -/

/-- C10: supplying `--cmdline` with the empty string behaves identically to
omitting the flag (both give `args.cmdline = ""`, the argparse default), and
the `.cmdline` section appears in the plan iff the string is nonempty. -/
theorem C10_empty_cmdline (env : Env) (args : Args) (start : Int) :
    mainRun env { args with cmdline := "" } =
      mainRun env { args with cmdline := cmdlineDefault } ∧
    (".cmdline" ∈ (running_total (buildSizes args 0x1000) start).map Prod.fst ↔
      args.cmdline ≠ "") := by
  refine ⟨rfl, ?_⟩
  rw [running_total_names, buildSizes_names]
  cases hs : args.splash <;> by_cases hc : args.cmdline = "" <;>
    simp [hs, hc]

/-! ## Claim C8 -/

/-- C8: on every fatal input-validation failure — an unrecognized
architecture string, or no stub found at any candidate path — the run
terminates with an empty effect trace: no temporary file is created, no
subprocess runs, and in particular the output file is never created or
modified. -/
theorem C8_fatal_before_effects (env : Env) (args : Args)
    (hstub : args.efistub = none) :
    (translate_machine args.arch = none →
      mainRun env args = ([], .error (unknownArchMsg args.arch))) ∧
    (∀ code, translate_machine args.arch = some code →
      (∀ p ∈ guesslist code, env.pathExists p = false) →
      mainRun env args = ([], .error (stubAbsentMsg code))) := by
  constructor
  · intro h
    unfold mainRun resolveStub guess_efistub
    rw [hstub, h]
  · intro code h hpaths
    have hfind : (guesslist code).find? env.pathExists = none :=
      List.find?_eq_none.mpr fun p hp => by simp [hpaths p hp]
    unfold mainRun resolveStub guess_efistub
    rw [hstub, h]
    simp [hfind]

/-- Concrete run for the C8 witness: stub autodetection requested for the
unrecognized architecture string `sparc64`, with no stub files present. -/
def c8env : Env := ⟨fun _ => false, "", 0⟩

/-- Arguments for the C8 witness. -/
def c8args : Args :=
  ⟨"out.efi", ⟨"vmlinuz", 1⟩, ⟨"initrd.img", 1⟩, ⟨"os-release", 1⟩, none, "",
    none, "sparc64"⟩

/-- Witness for C8 on the concrete run. -/
theorem C8_fatal_before_effects_witness :
    c8args.efistub = none ∧
    ((translate_machine c8args.arch = none →
       mainRun c8env c8args = ([], .error (unknownArchMsg c8args.arch))) ∧
     (∀ code, translate_machine c8args.arch = some code →
       (∀ p ∈ guesslist code, c8env.pathExists p = false) →
       mainRun c8env c8args = ([], .error (stubAbsentMsg code)))) :=
  ⟨rfl, C8_fatal_before_effects c8env c8args rfl⟩

/-! ## Claim C9 -/

/-- C9: once the stub is resolved and the section headers parse, the run
always completes with a successful outcome that surfaces `objcopy`'s exit
status unchanged — a nonzero exit status of the final `objcopy` invocation is
not raised as an exception and does not make the run fail (`check=False`).
The effect trace ends with the `objcopy` invocation followed by the
temporary file's deletion. -/
theorem C9_objcopy_failure_not_raised (env : Env) (args : Args)
    (stub : String) (last : Nat)
    (h1 : resolveStub env.pathExists args = .ok stub)
    (h2 : parse_last_section env.objdumpOut = some last) :
    (mainRun env args).2 =
      .ok (running_total (buildSizes args 0x1000) (round_up (last : Int) 0x1000),
        env.objcopyExit) ∧
    (mainRun env args).1 =
      [.tempfileCreate, .tempfileWrite args.cmdline, .subprocessObjdump stub,
       .subprocessObjcopy (objcopyCmd stub args.output
         (running_total (buildSizes args 0x1000) (round_up (last : Int) 0x1000))),
       .tempfileDelete] := by
  unfold mainRun
  rw [h1, h2]
  constructor <;> simp [subprocess_run]

/-- Concrete run for the C9 witness: `objcopy` exits with status 7. -/
def c9env : Env := ⟨fun _ => false, " 5 .reloc 100 2000 2000 1800 2**2\n", 7⟩

/-- Arguments for the C9 witness. -/
def c9args : Args :=
  ⟨"uki.efi", ⟨"vmlinuz", 2⟩, ⟨"initrd.img", 3⟩, ⟨"os-release", 4⟩, none, "",
    some "stub.efi", "x86_64"⟩

/-- Witness for C9 on the concrete run: despite the nonzero `objcopy` exit
status, the run completes successfully and surfaces the status. -/
theorem C9_objcopy_failure_not_raised_witness :
    resolveStub c9env.pathExists c9args = .ok "stub.efi" ∧
    parse_last_section c9env.objdumpOut = some 0x2000 ∧
    ((mainRun c9env c9args).2 =
       .ok (running_total (buildSizes c9args 0x1000)
         (round_up ((0x2000 : Nat) : Int) 0x1000), c9env.objcopyExit) ∧
     (mainRun c9env c9args).1 =
       [.tempfileCreate, .tempfileWrite c9args.cmdline, .subprocessObjdump "stub.efi",
        .subprocessObjcopy (objcopyCmd "stub.efi" c9args.output
          (running_total (buildSizes c9args 0x1000)
            (round_up ((0x2000 : Nat) : Int) 0x1000))),
        .tempfileDelete]) :=
  ⟨rfl, by decide,
    C9_objcopy_failure_not_raised c9env c9args "stub.efi" 0x2000 rfl (by decide)⟩

end Ukiki
